import Mathlib

/-!
Shallow embedding of src/heic2jpg.py (the heic-to-jpg directory watcher).

Paths and strings are modelled as List Char. Python exceptions are modelled
by the PyResult type: PyResult.raised e is an exception escaping a call,
PyResult.ok a is a normal return. Time is modelled by counting the
milliseconds passed to time.sleep. The external world (the magick
subprocess, send2trash, the filesystem enumeration, the watchdog event
stream) is supplied through oracles, so every definition is executable.
-/

namespace Heic2jpg

/-- Character-wise lowercasing, the model of str.lower for the ASCII
extensions compared in the source (lower of a path agrees with Python
on the .heic and .jpg suffix tests). -/
def strLower (p : List Char) : List Char := p.map Char.toLower

def dotHeic : List Char := ".heic".toList

def dotJpg : List Char := ".jpg".toList

/-- The trash-directory marker compared against path segments
(line 133 of src/heic2jpg.py). -/
def trashMarker : List Char := ".Trash".toList

/-- Model of event.src_path.split(os.sep) with os.sep the slash
(line 133 of src/heic2jpg.py). -/
def pathSegs (p : List Char) : List (List Char) := List.splitOn '/' p

/-- Last index of a character in a list, -1 when absent: the model of
str.rfind used by os.path.splitext. -/
def rfindIdx (c : Char) : List Char → Int
  | [] => -1
  | x :: xs =>
    let r := rfindIdx c xs
    if r ≥ 0 then r + 1
    else if x = c then 0 else -1

/-- Faithful port of CPython posixpath.splitext (called at line 91 of
src/heic2jpg.py): split at the last dot after the last slash, unless every
character between that slash and that dot is itself a dot (so a leading-dot
filename such as .heic has no extension). -/
def splitext (p : List Char) : List Char × List Char :=
  let sepIdx := rfindIdx '/' p
  let dotIdx := rfindIdx '.' p
  if sepIdx < dotIdx then
    if ((p.drop (sepIdx + 1).toNat).take (dotIdx - sepIdx - 1).toNat).any (fun ch => ch ≠ '.') then
      (p.take dotIdx.toNat, p.drop dotIdx.toNat)
    else (p, [])
  else (p, [])

/-- The destination path built at line 91 of src/heic2jpg.py:
the splitext root of the source path with the literal suffix .jpg. -/
def destPath (p : List Char) : List Char := (splitext p).1 ++ dotJpg

/-- The argv passed to subprocess.run at line 91 of src/heic2jpg.py. -/
def convCmd (p : List Char) : List (List Char) :=
  ["magick".toList, "convert".toList, p, destPath p]

/-- A Python exception value. fileNotFound stands for the
FileNotFoundError subprocess.run raises when the executable is missing;
spawnError for any other OSError from spawning. -/
inductive PyErr where
  | fileNotFound : PyErr
  | spawnError : PyErr
deriving DecidableEq

/-- A Python call outcome: normal return or an exception escaping the call. -/
inductive PyResult (α : Type) where
  | ok : α → PyResult α
  | raised : PyErr → PyResult α
deriving DecidableEq

/-- Observable result of one delete_file call: number of send2trash
attempts made, total milliseconds slept, whether the file reached the
trash, and how many warning and error log lines were emitted. -/
structure DeleteResult where
  attempts : Nat
  sleepMs : Nat
  deleted : Bool
  warns : Nat
  errors : Nat
deriving DecidableEq

def maxRetries : Nat := 10

def delayMs : Nat := 500

/-- One pass of the retry loop of ImageConverter.delete_file
(lines 104-118 of src/heic2jpg.py). i is the Python loop index, rem the
remaining iterations of range(max_retries), and fails tells whether the
send2trash call at attempt i raises. Each iteration sleeps delay before
the attempt; a failing attempt that is not the last (i < max_retries - 1)
logs a warning and sleeps delay again before retrying; a failing last
attempt logs an error and the loop ends. The except clause catches every
exception, so the loop always returns normally. -/
def deleteGo (fails : Nat → Bool) : Nat → Nat → DeleteResult
  | _, 0 => ⟨0, 0, false, 0, 0⟩
  | i, rem + 1 =>
    if fails i then
      if i < maxRetries - 1 then
        ⟨(deleteGo fails (i + 1) rem).attempts + 1,
         (deleteGo fails (i + 1) rem).sleepMs + delayMs + delayMs,
         (deleteGo fails (i + 1) rem).deleted,
         (deleteGo fails (i + 1) rem).warns + 1,
         (deleteGo fails (i + 1) rem).errors⟩
      else
        ⟨1, delayMs, false, 0, 1⟩
    else
      ⟨1, delayMs, true, 0, 0⟩

/-- ImageConverter.delete_file (lines 97-118 of src/heic2jpg.py). -/
def delete_file (fails : Nat → Bool) : DeleteResult :=
  deleteGo fails 0 maxRetries

/-- Result of the completed subprocess.run call: its returncode, whether
the autodelete branch at line 94 ran, and the delete_file result when it
did. -/
structure ConvOutcome where
  returncode : Int
  deletionTriggered : Bool
  deleteResult : Option DeleteResult
deriving DecidableEq

/-- One ImageConverter.heic_to_jpg call: the argv it built and either its
normal return or the exception escaping it. -/
structure ConvInvocation where
  cmd : List (List Char)
  outcome : PyResult ConvOutcome
deriving DecidableEq

/-- ImageConverter.heic_to_jpg (lines 83-95 of src/heic2jpg.py). spawnOf
gives, per argv, the behaviour of subprocess.run: ok rc is a completed
process with that returncode, raised e a spawn failure. The source wraps
subprocess.run in no try block, so a raised spawn failure escapes the
call unchanged. On a completed process, line 94 triggers delete_file
exactly when autodelete is set and the returncode is 0. -/
def heic_to_jpg (spawnOf : List (List Char) → PyResult Int) (autodelete : Bool)
    (fails : Nat → Bool) (path : List Char) : ConvInvocation :=
  let cmd := convCmd path
  match spawnOf cmd with
  | PyResult.raised e => ⟨cmd, PyResult.raised e⟩
  | PyResult.ok rc =>
    if autodelete && (rc == 0) then
      ⟨cmd, PyResult.ok ⟨rc, true, some (delete_file fails)⟩⟩
    else
      ⟨cmd, PyResult.ok ⟨rc, false, none⟩⟩

/-- The two watchdog event kinds the handler overrides
(on_created and on_modified, lines 140-144 of src/heic2jpg.py). -/
inductive EventKind where
  | created : EventKind
  | modified : EventKind
deriving DecidableEq

structure FileEvent where
  path : List Char
  kind : EventKind
deriving DecidableEq

/-- The check event.src_path.lower().endswith(chr 46 :: heic) at line 137. -/
def endsWithHeicCI (p : List Char) : Bool := dotHeic.isSuffixOf (strLower p)

/-- FileHandler.process (lines 129-138 of src/heic2jpg.py): returns the
path handed to heic_to_jpg, or none when the event is only logged. An
event with a trash-marker path segment is ignored; otherwise conversion
runs exactly when the event kind is created and the lowercased path ends
in .heic. -/
def process (e : FileEvent) : Option (List Char) :=
  if (pathSegs e.path).contains trashMarker then none
  else if (e.kind == EventKind.created) && endsWithHeicCI e.path then some e.path
  else none

/-- The PatternMatchingEventHandler gate for patterns *.heic and *.jpg
with the default case_sensitive=False (line 122 of src/heic2jpg.py):
only events whose path matches one of the patterns case-insensitively are
dispatched to on_created and on_modified at all. -/
def matchesPatterns (p : List Char) : Bool :=
  dotHeic.isSuffixOf (strLower p) || dotJpg.isSuffixOf (strLower p)

/-- Dispatch of one watchdog event through the handler: the pattern gate,
then FileHandler.process. Returns the path converted, if any. -/
def handleEvent (e : FileEvent) : Option (List Char) :=
  if matchesPatterns e.path then process e else none

/-- One event as seen by the dispatch loop: its logged path and whether a
conversion was invoked for it. -/
structure ProcEntry where
  path : List Char
  converted : Bool
deriving DecidableEq

/-- The watchdog dispatch loop feeding FileHandler: events are processed
one at a time in arrival order, each paired with the subprocess.run
behaviour its conversion would see. The watchdog dispatcher catches only
queue.Empty, so an exception escaping the handler ends dispatch: no later
event is processed. Returns the entries processed and the escaped
exception, if any. -/
def runLoop (autodelete : Bool) (fails : Nat → Bool) :
    List (FileEvent × PyResult Int) → List ProcEntry × Option PyErr
  | [] => ([], none)
  | (e, sr) :: rest =>
    match handleEvent e with
    | none =>
      let r := runLoop autodelete fails rest
      (⟨e.path, false⟩ :: r.1, r.2)
    | some p =>
      match (heic_to_jpg (fun _ => sr) autodelete fails p).outcome with
      | PyResult.raised err => ([⟨e.path, true⟩], some err)
      | PyResult.ok _ =>
        let r := runLoop autodelete fails rest
        (⟨e.path, true⟩ :: r.1, r.2)

/-- A filename is hidden to glob when it begins with a dot. -/
def nonHidden (s : List Char) : Bool :=
  match s with
  | '.' :: _ => false
  | _ => true

/-- A root-relative path, as the list of its segments. -/
def extMatchesCI (p : List (List Char)) : Bool :=
  match p.getLast? with
  | none => false
  | some fn => dotHeic.isSuffixOf (strLower fn)

/-- Modelled from the documented semantics of glob.iglob with
recursive=True for the pattern at line 80 of src/heic2jpg.py
(directory, then **, then star dot [hH][eE][iI][cC]): a root-relative
path matches when no segment is hidden (glob wildcards never match a
leading dot, for intermediate directories and for the filename alike)
and the final segment ends in a dot followed by a four-letter
case-variant of heic. -/
def matchesGlobHeic (p : List (List Char)) : Bool :=
  match p.getLast? with
  | none => false
  | some fn => p.all nonHidden && dotHeic.isSuffixOf (strLower fn)

/-- Segments joined back into a path with slashes. -/
def joinPath (p : List (List Char)) : List Char :=
  List.intercalate "/".toList p

/-- The body of the for loop of ImageConverter.convert_existing
(lines 80-81 of src/heic2jpg.py) over the already-globbed files: each is
handed to heic_to_jpg in enumeration order; an exception escaping one
conversion aborts the loop. Returns the files whose conversion was
invoked, in order, and the escaped exception, if any. -/
def bulkGo (spawnOf : List (List Char) → PyResult Int) (autodelete : Bool)
    (fails : Nat → Bool) : List (List (List Char)) → List (List (List Char)) × Option PyErr
  | [] => ([], none)
  | p :: rest =>
    match (heic_to_jpg spawnOf autodelete fails (joinPath p)).outcome with
    | PyResult.raised e => ([p], some e)
    | PyResult.ok _ =>
      let r := bulkGo spawnOf autodelete fails rest
      (p :: r.1, r.2)

/-- ImageConverter.convert_existing (lines 75-81 of src/heic2jpg.py):
fs is the filesystem enumeration under the watched root in enumeration
order; glob keeps the entries matching the recursive heic pattern, and
each is converted in order. -/
def convert_existing (spawnOf : List (List Char) → PyResult Int) (autodelete : Bool)
    (fails : Nat → Bool) (fs : List (List (List Char))) :
    List (List (List Char)) × Option PyErr :=
  bulkGo spawnOf autodelete fails (fs.filter matchesGlobHeic)

/-- One observable step of main (lines 168-214 of src/heic2jpg.py):
a bulk conversion of a pre-existing file, the observer start, or the
handling of one watched event. -/
inductive MainStep where
  | bulkConvert : List (List Char) → MainStep
  | watchStart : MainStep
  | procEvent : ProcEntry → MainStep
deriving DecidableEq

/-- The path of a bulk-conversion step. -/
def bulkPathOf : MainStep → Option (List (List Char))
  | MainStep.bulkConvert p => some p
  | _ => none

/-- The steady-state part of main (lines 198-214 of src/heic2jpg.py):
when immediate is set, convert_existing runs first and an exception
escaping it ends the program before the observer starts; otherwise the
observer starts and the dispatch loop processes the event stream. -/
def mainRun (spawnOf : List (List Char) → PyResult Int) (autodelete : Bool)
    (fails : Nat → Bool) (immediate : Bool) (fs : List (List (List Char)))
    (events : List (FileEvent × PyResult Int)) : List MainStep × Option PyErr :=
  if immediate then
    match convert_existing spawnOf autodelete fails fs with
    | (done, some e) => (done.map MainStep.bulkConvert, some e)
    | (done, none) =>
      let r := runLoop autodelete fails events
      (done.map MainStep.bulkConvert ++ MainStep.watchStart :: r.1.map MainStep.procEvent, r.2)
  else
    let r := runLoop autodelete fails events
    (MainStep.watchStart :: r.1.map MainStep.procEvent, r.2)

end Heic2jpg

namespace Heic2jpg

example : delete_file (fun _ => true) = ⟨10, 9500, false, 9, 1⟩ := by decide

example : delete_file (fun _ => false) = ⟨1, 500, true, 0, 0⟩ := by decide

example : delete_file (fun i => i < 3) = ⟨4, 3500, true, 3, 0⟩ := by decide

example : splitext "OLD.HEIC".toList = ("OLD".toList, ".HEIC".toList) := by decide

example : splitext "/d/.heic".toList = ("/d/.heic".toList, []) := by decide

example : destPath "OLD.HEIC".toList = "OLD.jpg".toList := by decide

example : pathSegs "/u/.Trash/a.heic".toList
    = ["".toList, "u".toList, ".Trash".toList, "a.heic".toList] := by decide

example : handleEvent ⟨"/u/a.HeIc".toList, EventKind.created⟩ = some "/u/a.HeIc".toList := by
  decide

example : handleEvent ⟨"/u/.Trash/a.heic".toList, EventKind.created⟩ = none := by decide

example : matchesGlobHeic [".d".toList, "b.heic".toList] = false := by decide

example : extMatchesCI [".d".toList, "b.heic".toList] = true := by decide

/-- The retry loop never makes more attempts than it has iterations left. -/
theorem deleteGo_attempts_le : ∀ (rem i : Nat) (fails : Nat → Bool),
    (deleteGo fails i rem).attempts ≤ rem := by
  intro rem
  induction rem with
  | zero => intro i fails; simp [deleteGo]
  | succ rem ih =>
    intro i fails
    simp only [deleteGo]
    by_cases hf : fails i
    · simp only [hf, if_true]
      by_cases hi : i < maxRetries - 1
      · simp only [hi, if_true]
        have := ih (i + 1) fails
        omega
      · simp [hi]
    · simp [hf]

/-- Unfolding of one iteration of the retry loop. -/
theorem deleteGo_succ (fails : Nat → Bool) (i rem : Nat) :
    deleteGo fails i (rem + 1) =
      if fails i then
        if i < maxRetries - 1 then
          ⟨(deleteGo fails (i + 1) rem).attempts + 1,
           (deleteGo fails (i + 1) rem).sleepMs + delayMs + delayMs,
           (deleteGo fails (i + 1) rem).deleted,
           (deleteGo fails (i + 1) rem).warns + 1,
           (deleteGo fails (i + 1) rem).errors⟩
        else
          ⟨1, delayMs, false, 0, 1⟩
      else
        ⟨1, delayMs, true, 0, 0⟩ := rfl

/-- Sleep-time bound for the retry loop: with rem iterations left out of
the 10 of range(max_retries), at most 2 sleeps per iteration happen, and
the final iteration sleeps only once. -/
theorem deleteGo_sleepMs_le : ∀ (rem i : Nat) (fails : Nat → Bool), i + rem = 10 →
    (deleteGo fails i rem).sleepMs ≤ 1000 * rem - 500 := by
  intro rem
  induction rem with
  | zero => intro i fails _; simp [deleteGo]
  | succ rem ih =>
    intro i fails h
    rw [deleteGo_succ]
    by_cases hf : fails i = true
    · rw [if_pos hf]
      by_cases hi : i < maxRetries - 1
      · rw [if_pos hi]
        have hi9 : i < 9 := hi
        have hrec := ih (i + 1) fails (by omega)
        show (deleteGo fails (i + 1) rem).sleepMs + delayMs + delayMs ≤ 1000 * (rem + 1) - 500
        have hd : delayMs = 500 := rfl
        omega
      · rw [if_neg hi]
        show delayMs ≤ 1000 * (rem + 1) - 500
        have hd : delayMs = 500 := rfl
        omega
    · rw [if_neg hf]
      show delayMs ≤ 1000 * (rem + 1) - 500
      have hd : delayMs = 500 := rfl
      omega

/-- When every remaining attempt fails, the loop runs all its iterations:
two sleeps per iteration except the last, a warning per failing non-final
attempt, one final error, and the file is not deleted. -/
theorem deleteGo_all_fail : ∀ (rem i : Nat) (fails : Nat → Bool), i + rem = 10 →
    1 ≤ rem → (∀ j, j < rem → fails (i + j) = true) →
    deleteGo fails i rem = ⟨rem, 1000 * rem - 500, false, rem - 1, 1⟩ := by
  intro rem
  induction rem with
  | zero => intro i fails _ h1 _; omega
  | succ rem ih =>
    intro i fails h _ hall
    have hd : delayMs = 500 := rfl
    have hf : fails i = true := by
      have := hall 0 (by omega)
      simpa using this
    rw [deleteGo_succ, if_pos hf]
    cases rem with
    | zero =>
      have hi : ¬ i < maxRetries - 1 := by
        show ¬ i < 10 - 1
        omega
      rw [if_neg hi]
      simp [DeleteResult.mk.injEq, delayMs]
    | succ rem' =>
      have hi : i < maxRetries - 1 := by
        show i < 10 - 1
        omega
      have hrec := ih (i + 1) fails (by omega) (by omega) (by
        intro j hj
        have h2 : i + 1 + j = i + (j + 1) := by omega
        rw [h2]
        exact hall (j + 1) (by omega))
      rw [if_pos hi, hrec]
      simp [DeleteResult.mk.injEq, delayMs]
      all_goals omega

/-- When the first k attempts fail and attempt k succeeds, the loop makes
k + 1 attempts, sleeps twice per failing attempt plus once before the
success, warns k times and errors never, and the file is deleted. -/
theorem deleteGo_first_success : ∀ (k rem i : Nat) (fails : Nat → Bool),
    i + rem = 10 → k < rem → (∀ j, j < k → fails (i + j) = true) →
    fails (i + k) = false →
    deleteGo fails i rem = ⟨k + 1, 1000 * k + 500, true, k, 0⟩ := by
  intro k
  induction k with
  | zero =>
    intro rem i fails hsum hlt _ hk
    have hf : ¬ fails i = true := by simpa using hk
    cases rem with
    | zero => omega
    | succ rem' =>
      rw [deleteGo_succ, if_neg hf]
      simp [DeleteResult.mk.injEq, delayMs]
  | succ k ih =>
    intro rem i fails hsum hlt hall hk
    have hf : fails i = true := by
      have := hall 0 (by omega)
      simpa using this
    cases rem with
    | zero => omega
    | succ rem' =>
      have hi : i < maxRetries - 1 := by
        show i < 10 - 1
        omega
      have hrec := ih rem' (i + 1) fails (by omega) (by omega) (by
        intro j hj
        have h2 : i + 1 + j = i + (j + 1) := by omega
        rw [h2]
        exact hall (j + 1) (by omega)) (by
        have h2 : i + 1 + k = i + (k + 1) := by omega
        rw [h2]
        exact hk)
      rw [deleteGo_succ, if_pos hf, if_pos hi, hrec]
      simp [DeleteResult.mk.injEq, delayMs]
      all_goals omega

/-- C2, counterexample: with every send2trash attempt failing, delete_file
sleeps 9500 milliseconds in total, not the 10 times 500 = 5000 the claim
computes, because each failing non-final attempt sleeps a second time
before retrying (line 116 of src/heic2jpg.py). -/
theorem c2_counterexample :
    (delete_file (fun _ => true)).sleepMs = 9500
      ∧ ¬ (delete_file (fun _ => true)).sleepMs = 10 * 500 := by
  decide

/-- C2, amended: delete_file makes at most 10 attempts, pausing 0.5
seconds before each attempt and an additional 0.5 seconds after each
failed attempt other than the last, so its total worst-case blocking time
is 19 times 0.5 seconds = 9.5 seconds per file, reached when every
attempt fails. -/
theorem c2_amended_retry_budget :
    (∀ fails : Nat → Bool,
      (delete_file fails).attempts ≤ 10 ∧ (delete_file fails).sleepMs ≤ 9500)
      ∧ delete_file (fun _ => true) = ⟨10, 9500, false, 9, 1⟩ := by
  constructor
  · intro fails
    constructor
    · have := deleteGo_attempts_le maxRetries 0 fails
      simpa [delete_file, maxRetries] using this
    · have := deleteGo_sleepMs_le maxRetries 0 fails (by decide)
      simpa [delete_file, maxRetries] using this
  · decide

/-- C8: delete_file never propagates an exception: the except clause
catches every failing attempt, so the call always returns normally. When
the first k attempts fail and attempt k succeeds, each failure is warned
and retried; when all 10 attempts fail, the last failure logs an error
instead of a warning, the call still returns normally, and the file is
left in place (deleted = false). -/
theorem c8_delete_never_raises : ∀ fails : Nat → Bool,
    ((∀ j, j < 10 → fails j = true) →
      delete_file fails = ⟨10, 9500, false, 9, 1⟩)
    ∧ (∀ k, k < 10 → (∀ j, j < k → fails j = true) → fails k = false →
      delete_file fails = ⟨k + 1, 1000 * k + 500, true, k, 0⟩) := by
  intro fails
  constructor
  · intro hall
    have := deleteGo_all_fail maxRetries 0 fails (by decide) (by decide) (by
      intro j hj
      simpa using hall j (by simpa [maxRetries] using hj))
    simpa [delete_file, maxRetries] using this
  · intro k hk hbefore hsucc
    have := deleteGo_first_success k maxRetries 0 fails (by decide)
      (by simpa [maxRetries] using hk)
      (by intro j hj; simpa using hbefore j hj)
      (by simpa using hsucc)
    simpa [delete_file] using this

/-- C8 witness: with the first three attempts failing and the fourth
succeeding, delete_file returns normally with 4 attempts, 3 warnings, no
error, and the file deleted. -/
theorem c8_witness :
    delete_file (fun i => decide (i < 3)) = ⟨4, 3500, true, 3, 0⟩ := by
  have h := (c8_delete_never_raises (fun i => decide (i < 3))).2 3 (by omega)
    (by intro j hj; simpa using hj) (by simp)
  simpa using h

/-- The splitext decomposition concatenates back to the input path, so the
second component really is the extension split off the path. -/
theorem splitext_append (p : List Char) : (splitext p).1 ++ (splitext p).2 = p := by
  simp only [splitext]
  split
  · split
    · simp [List.take_append_drop]
    · simp
  · simp

/-- The argv heic_to_jpg passes to subprocess.run is always the convert
command for its path, whatever the spawn does. -/
theorem heic_to_jpg_cmd (spawnOf : List (List Char) → PyResult Int) (ad : Bool)
    (fails : Nat → Bool) (path : List Char) :
    (heic_to_jpg spawnOf ad fails path).cmd = convCmd path := by
  simp only [heic_to_jpg]
  split <;> first | rfl | (split <;> rfl)

/-- When subprocess.run completes with returncode rc, heic_to_jpg returns
normally, with the autodelete branch governed by the line-94 test. -/
theorem heic_to_jpg_outcome (spawnOf : List (List Char) → PyResult Int) (ad : Bool)
    (fails : Nat → Bool) (path : List Char) (rc : Int)
    (h : spawnOf (convCmd path) = PyResult.ok rc) :
    (heic_to_jpg spawnOf ad fails path).outcome =
      PyResult.ok
        (if ad && (rc == 0) then ⟨rc, true, some (delete_file fails)⟩
         else ⟨rc, false, none⟩) := by
  simp only [heic_to_jpg, h]
  split <;> rfl

/-- When subprocess.run raises (spawn failure), the exception escapes
heic_to_jpg unchanged: there is no surrounding try block. -/
theorem heic_to_jpg_raised (spawnOf : List (List Char) → PyResult Int) (ad : Bool)
    (fails : Nat → Bool) (path : List Char) (e : PyErr)
    (h : spawnOf (convCmd path) = PyResult.raised e) :
    (heic_to_jpg spawnOf ad fails path).outcome = PyResult.raised e := by
  simp only [heic_to_jpg, h]

/-- C6: after a completed conversion attempt with exit code rc, the
deletion step runs if and only if autodelete is set and rc = 0; on a
non-zero exit no deletion is attempted. -/
theorem c6_deletion_iff_success : ∀ (spawnOf : List (List Char) → PyResult Int) (ad : Bool)
    (fails : Nat → Bool) (path : List Char) (rc : Int),
    spawnOf (convCmd path) = PyResult.ok rc →
    ∃ out : ConvOutcome, (heic_to_jpg spawnOf ad fails path).outcome = PyResult.ok out
      ∧ (out.deletionTriggered = true ↔ (ad = true ∧ rc = 0))
      ∧ (rc ≠ 0 → out.deleteResult = none) := by
  intro spawnOf ad fails path rc h
  by_cases hc : (ad && (rc == 0)) = true
  · have hc2 : ad = true ∧ rc = 0 := by
      rw [Bool.and_eq_true, beq_iff_eq] at hc
      exact hc
    refine ⟨⟨rc, true, some (delete_file fails)⟩, ?_, by simpa using hc2,
      fun hrc => absurd hc2.2 hrc⟩
    rw [heic_to_jpg_outcome spawnOf ad fails path rc h, if_pos hc]
  · have hc2 : ¬ (ad = true ∧ rc = 0) := by
      rw [Bool.and_eq_true, beq_iff_eq] at hc
      exact hc
    refine ⟨⟨rc, false, none⟩, ?_, by simpa using hc2, fun _ => rfl⟩
    rw [heic_to_jpg_outcome spawnOf ad fails path rc h, if_neg hc]

/-- C6 witness: a successful conversion with autodelete set triggers
deletion. -/
theorem c6_witness : ∃ out : ConvOutcome,
    (heic_to_jpg (fun _ => PyResult.ok 0) true (fun _ => false) "a.heic".toList).outcome
        = PyResult.ok out
      ∧ (out.deletionTriggered = true ↔ (true = true ∧ (0 : Int) = 0))
      ∧ ((0 : Int) ≠ 0 → out.deleteResult = none) :=
  c6_deletion_iff_success (fun _ => PyResult.ok 0) true (fun _ => false) "a.heic".toList 0 rfl

/-- C7: for every source path, the converter invokes the external
executable as magick convert sourcePath destinationPath, where the
destination is the source path with its splitext extension replaced by
.jpg in place (the first conjunct gives the argv, the second that the
splitext root and extension concatenate back to the source path, so the
destination is indeed the source with its extension replaced). The call
is synchronous in the source (subprocess.run returns only after exit);
the sequential model reflects that by making the returncode available to
the same invocation. -/
theorem c7_command_shape : ∀ (spawnOf : List (List Char) → PyResult Int) (ad : Bool)
    (fails : Nat → Bool) (path : List Char),
    (heic_to_jpg spawnOf ad fails path).cmd
      = ["magick".toList, "convert".toList, path, (splitext path).1 ++ dotJpg]
    ∧ (splitext path).1 ++ (splitext path).2 = path := by
  intro spawnOf ad fails path
  exact ⟨(heic_to_jpg_cmd spawnOf ad fails path).trans rfl, splitext_append path⟩

/-- C10: the destination path always carries the literal lowercase .jpg
suffix; in particular OLD.HEIC is converted to OLD.jpg and never to
OLD.JPG. -/
theorem c10_lowercase_target_extension :
    (∀ p : List Char, dotJpg.isSuffixOf (destPath p) = true)
    ∧ destPath "OLD.HEIC".toList = "OLD.jpg".toList
    ∧ destPath "OLD.HEIC".toList ≠ "OLD.JPG".toList := by
  refine ⟨?_, by decide, by decide⟩
  intro p
  show dotJpg.isSuffixOf ((splitext p).1 ++ dotJpg) = true
  rw [List.isSuffixOf_iff_suffix]
  exact List.suffix_append _ _

/-- C1, counterexample: with the converter executable missing, the
FileNotFoundError raised by subprocess.run escapes heic_to_jpg and the
handler (neither has a try block), ending event dispatch: of two created
heic events, only the first is processed, and the loop exits with the
exception instead of reporting a failed conversion. -/
theorem c1_counterexample :
    runLoop true (fun _ => false)
      [(⟨"a.heic".toList, EventKind.created⟩, PyResult.raised PyErr.fileNotFound),
       (⟨"b.heic".toList, EventKind.created⟩, PyResult.ok 0)]
      = ([⟨"a.heic".toList, true⟩], some PyErr.fileNotFound) := by
  decide

/-- C1, amended: only completed conversions are non-fatal. For every
sequence of events whose conversions all reach a completed subprocess
(any exit codes, zero or not), the loop processes every event and no
exception escapes; but a spawn failure raises out of the conversion call
and stops the processing of subsequent events. -/
theorem c1_amended_completed_runs_nonfatal : ∀ (ad : Bool) (fails : Nat → Bool)
    (evs : List (FileEvent × PyResult Int)),
    (∀ x ∈ evs, ∃ rc : Int, x.2 = PyResult.ok rc) →
    (runLoop ad fails evs).2 = none ∧ (runLoop ad fails evs).1.length = evs.length := by
  intro ad fails evs
  induction evs with
  | nil => intro _; exact ⟨rfl, rfl⟩
  | cons x rest ih =>
    intro h
    obtain ⟨e, sr⟩ := x
    obtain ⟨rc, hrc⟩ := h (e, sr) (List.mem_cons_self _ _)
    replace hrc : sr = PyResult.ok rc := hrc
    subst hrc
    have hrest := ih (fun y hy => h y (List.mem_cons_of_mem _ hy))
    cases hhe : handleEvent e with
    | none => simp [runLoop, hhe, hrest.1, hrest.2]
    | some p =>
      have hout := heic_to_jpg_outcome (fun _ => PyResult.ok rc) ad fails p rc rfl
      simp [runLoop, hhe, hout, hrest.1, hrest.2]

/-- C1 witness: two created heic events whose conversions complete with
exit codes 1 and 0 are both processed and no exception escapes. -/
theorem c1_witness :
    (runLoop true (fun _ => true)
      [(⟨"a.heic".toList, EventKind.created⟩, PyResult.ok 1),
       (⟨"b.heic".toList, EventKind.created⟩, PyResult.ok 0)]).2 = none
    ∧ (runLoop true (fun _ => true)
      [(⟨"a.heic".toList, EventKind.created⟩, PyResult.ok 1),
       (⟨"b.heic".toList, EventKind.created⟩, PyResult.ok 0)]).1.length = 2 := by
  have h := c1_amended_completed_runs_nonfatal true (fun _ => true)
    [(⟨"a.heic".toList, EventKind.created⟩, PyResult.ok 1),
     (⟨"b.heic".toList, EventKind.created⟩, PyResult.ok 0)] (by
    intro x hx
    simp only [List.mem_cons, List.mem_singleton] at hx
    rcases hx with hx | hx | hx
    · subst hx; exact ⟨1, rfl⟩
    · subst hx; exact ⟨0, rfl⟩
    · cases hx)
  simpa using h

/-- C3: an event whose path has a trash-marker segment is never converted,
whatever its kind and extension: FileHandler.process returns before the
conversion branch. -/
theorem c3_trash_rejected : ∀ e : FileEvent,
    (pathSegs e.path).contains trashMarker = true → handleEvent e = none := by
  intro e h
  have hm : trashMarker ∈ pathSegs e.path := by simpa using h
  simp [handleEvent, process, hm]

/-- C3 witness: a created heic file inside a trash directory is ignored. -/
theorem c3_witness :
    handleEvent ⟨"/u/.Trash/a.heic".toList, EventKind.created⟩ = none
    ∧ (pathSegs "/u/.Trash/a.heic".toList).contains trashMarker = true :=
  ⟨c3_trash_rejected _ (by decide), by decide⟩

/-- C4: an event of kind modified never triggers conversion, whatever its
path: the line-137 test requires event_type created. -/
theorem c4_modified_rejected : ∀ e : FileEvent,
    e.kind = EventKind.modified → handleEvent e = none := by
  intro e h
  simp [handleEvent, process, h]

/-- C4 witness: a modified heic file is not converted. -/
theorem c4_witness :
    handleEvent ⟨"a.heic".toList, EventKind.modified⟩ = none :=
  c4_modified_rejected _ rfl

/-- C5: a created event outside the trash whose path ends in any
letter-case combination of the .heic extension passes the pattern gate
and the process filter, and conversion is invoked on its path. -/
theorem c5_created_heic_accepted : ∀ (e : FileEvent) (stem ext : List Char),
    e.kind = EventKind.created → e.path = stem ++ ext → strLower ext = dotHeic →
    (pathSegs e.path).contains trashMarker = false →
    handleEvent e = some e.path := by
  intro e stem ext hk hp hext htrash
  have hsuffix : endsWithHeicCI e.path = true := by
    show dotHeic.isSuffixOf (strLower e.path) = true
    rw [hp]
    show dotHeic.isSuffixOf ((stem ++ ext).map Char.toLower) = true
    rw [List.map_append]
    rw [show ext.map Char.toLower = dotHeic from hext]
    rw [List.isSuffixOf_iff_suffix]
    exact List.suffix_append _ _
  have hpat : matchesPatterns e.path = true := by
    have h2 : dotHeic.isSuffixOf (strLower e.path) = true := hsuffix
    simp [matchesPatterns, h2]
  have hm : trashMarker ∉ pathSegs e.path := by simpa using htrash
  simp [handleEvent, hpat, process, hm, hk, hsuffix]

/-- C5 witness: a created file with the mixed-case extension .HeIc is
accepted and converted. -/
theorem c5_witness :
    handleEvent ⟨"/u/a.HeIc".toList, EventKind.created⟩ = some "/u/a.HeIc".toList :=
  c5_created_heic_accepted ⟨"/u/a.HeIc".toList, EventKind.created⟩ "/u/a".toList ".HeIc".toList
    rfl (by decide) (by decide) (by decide)

/-- When every spawn completes, the bulk loop converts its whole input
list in order and no exception escapes it. -/
theorem bulkGo_all_ok (spawnOf : List (List Char) → PyResult Int) (ad : Bool)
    (fails : Nat → Bool) (hs : ∀ cmd, ∃ rc : Int, spawnOf cmd = PyResult.ok rc) :
    ∀ l, bulkGo spawnOf ad fails l = (l, none) := by
  intro l
  induction l with
  | nil => rfl
  | cons p rest ih =>
    obtain ⟨rc, hrc⟩ := hs (convCmd (joinPath p))
    have hout := heic_to_jpg_outcome spawnOf ad fails (joinPath p) rc hrc
    simp [bulkGo, hout, ih]

/-- When every spawn completes, the immediate-mode main trace is the bulk
conversions of the glob matches, then the observer start, then the
dispatched events. -/
theorem mainRun_immediate_ok (spawnOf : List (List Char) → PyResult Int) (ad : Bool)
    (fails : Nat → Bool) (fs : List (List (List Char)))
    (events : List (FileEvent × PyResult Int))
    (hs : ∀ cmd, ∃ rc : Int, spawnOf cmd = PyResult.ok rc) :
    mainRun spawnOf ad fails true fs events
      = ((fs.filter matchesGlobHeic).map MainStep.bulkConvert
          ++ MainStep.watchStart :: (runLoop ad fails events).1.map MainStep.procEvent,
         (runLoop ad fails events).2) := by
  have hb := bulkGo_all_ok spawnOf ad fails hs (fs.filter matchesGlobHeic)
  simp [mainRun, convert_existing, hb]

/-- Projecting the bulk paths out of a pure bulk prefix recovers it. -/
theorem filterMap_bulk (l : List (List (List Char))) :
    (l.map MainStep.bulkConvert).filterMap bulkPathOf = l := by
  induction l with
  | nil => rfl
  | cons p rest ih => simp [bulkPathOf, ih]

/-- The watch-and-events tail of the trace carries no bulk conversion. -/
theorem filterMap_tail (m : List ProcEntry) :
    (MainStep.watchStart :: m.map MainStep.procEvent).filterMap bulkPathOf = [] := by
  induction m with
  | nil => rfl
  | cons q rest ih => simp [bulkPathOf, List.filterMap_cons] at ih ⊢

/-- In a trace made of a bulk prefix, the watch start, and dispatched
events, every bulk step sits strictly before every dispatched event. -/
theorem bulk_before_proc (A : List (List (List Char))) (B : List ProcEntry)
    (i j : Nat) (p : List (List Char)) (q : ProcEntry)
    (hi : (A.map MainStep.bulkConvert ++ MainStep.watchStart :: B.map MainStep.procEvent)[i]?
        = some (MainStep.bulkConvert p))
    (hj : (A.map MainStep.bulkConvert ++ MainStep.watchStart :: B.map MainStep.procEvent)[j]?
        = some (MainStep.procEvent q)) :
    i < j := by
  by_cases hja : j < (A.map MainStep.bulkConvert).length
  · exfalso
    rw [List.getElem?_append_left hja, List.getElem?_map] at hj
    cases hA : A[j]? <;> rw [hA] at hj <;> simp at hj
  · push_neg at hja
    by_cases hia : i < (A.map MainStep.bulkConvert).length
    · exact lt_of_lt_of_le hia hja
    · exfalso
      push_neg at hia
      rw [List.getElem?_append_right hia] at hi
      cases hk : i - (A.map MainStep.bulkConvert).length with
      | zero => rw [hk] at hi; simp at hi
      | succ k =>
        rw [hk, List.getElem?_cons_succ, List.getElem?_map] at hi
        cases hB : B[k]? <;> rw [hB] at hi <;> simp at hi

/-- The glob match is exactly: no hidden segment, and an extension that is
a case-variant of heic. -/
theorem matchesGlobHeic_eq (p : List (List Char)) :
    matchesGlobHeic p = (p.all nonHidden && extMatchesCI p) := by
  cases h : p.getLast? with
  | none => simp [matchesGlobHeic, extMatchesCI, h]
  | some fn => simp [matchesGlobHeic, extMatchesCI, h]

/-- C9, counterexample: the pre-existing file b.heic inside the hidden
directory .d has an extension that case-insensitively matches heic, yet
glob never enumerates it (glob wildcards skip dot-entries), so with
convertExisting set it is not bulk-converted: the main trace starts
watching without converting it. -/
theorem c9_counterexample :
    extMatchesCI [".d".toList, "b.heic".toList] = true
    ∧ (convert_existing (fun _ => PyResult.ok 0) false (fun _ => false)
        [[".d".toList, "b.heic".toList]]).1 = []
    ∧ (mainRun (fun _ => PyResult.ok 0) false (fun _ => false) true
        [[".d".toList, "b.heic".toList]] []).1 = [MainStep.watchStart] := by
  decide

/-- C9, amended: when convertExisting is set and every spawn completes,
the files bulk-converted are exactly the glob matches, once each, in
enumeration order (first conjunct: the bulk steps of the main trace are
the filtered enumeration itself); every bulk conversion happens strictly
before any watched-event processing (second conjunct); and a file matches
the glob exactly when its extension is a case-variant of heic and no path
segment below the root is hidden (third conjunct) — hidden files are
skipped, unlike what the claim states. -/
theorem c9_bulk_glob_before_watch :
    ∀ (spawnOf : List (List Char) → PyResult Int) (ad : Bool) (fails : Nat → Bool)
      (fs : List (List (List Char))) (events : List (FileEvent × PyResult Int)),
    (∀ cmd, ∃ rc : Int, spawnOf cmd = PyResult.ok rc) →
    ((mainRun spawnOf ad fails true fs events).1.filterMap bulkPathOf
        = fs.filter matchesGlobHeic)
    ∧ (∀ (i j : Nat) (p : List (List Char)) (q : ProcEntry),
        (mainRun spawnOf ad fails true fs events).1[i]? = some (MainStep.bulkConvert p) →
        (mainRun spawnOf ad fails true fs events).1[j]? = some (MainStep.procEvent q) →
        i < j)
    ∧ (∀ p, matchesGlobHeic p = (p.all nonHidden && extMatchesCI p)) := by
  intro spawnOf ad fails fs events hs
  have hmain := mainRun_immediate_ok spawnOf ad fails fs events hs
  refine ⟨?_, ?_, fun p => matchesGlobHeic_eq p⟩
  · rw [hmain]
    show ((fs.filter matchesGlobHeic).map MainStep.bulkConvert
        ++ MainStep.watchStart :: (runLoop ad fails events).1.map MainStep.procEvent).filterMap
          bulkPathOf = fs.filter matchesGlobHeic
    rw [List.filterMap_append, filterMap_bulk, filterMap_tail, List.append_nil]
  · rw [hmain]
    intro i j p q hi hj
    exact bulk_before_proc (fs.filter matchesGlobHeic) (runLoop ad fails events).1 i j p q hi hj

/-- C9 witness: a single visible pre-existing a.heic file is bulk
converted before watching starts. -/
theorem c9_witness :
    (mainRun (fun _ => PyResult.ok 0) false (fun _ => false) true
        [["a.heic".toList]] []).1.filterMap bulkPathOf = [["a.heic".toList]] := by
  have h := c9_bulk_glob_before_watch (fun _ => PyResult.ok 0) false (fun _ => false)
    [["a.heic".toList]] [] (fun cmd => ⟨0, rfl⟩)
  exact h.1.trans (by decide)

end Heic2jpg
